import Mathlib

/-
Verification of the RTE caption-capture pipeline:
a shallow embedding of the background service worker transcript engine
(service-worker.js), the caption-copyer diff logic (caption-copyer.js)
and the translate bridge (translate-bridge.js), together with proofs of
the specified properties.

Strings are modelled with Lean String and List Char; all text operations
are restricted to the ASCII behaviour of the JavaScript originals
(toLowerCase, length, slice on ASCII text agree with the model).
-/

namespace RTE

/-! Character and word helpers used by the caption-copyer similarity logic. -/

/-- Whitespace class of the JavaScript regular expression backslash-s,
restricted to ASCII. -/
def jsIsSpace (c : Char) : Bool :=
  c == ' ' || c == '\t' || c == '\n' || c == '\r' || c == '\x0b' || c == '\x0c'

/-- Split a character list into maximal non-whitespace words
(split on the regular expression backslash-s-plus in the source). -/
def splitWSAux : List Char → List Char → List (List Char)
  | [], acc => if acc = [] then [] else [acc.reverse]
  | c :: cs, acc =>
    if jsIsSpace c then
      (if acc = [] then splitWSAux cs [] else acc.reverse :: splitWSAux cs [])
    else splitWSAux cs (c :: acc)

def wordsOf (s : List Char) : List (List Char) :=
  splitWSAux s []

/-- Keep only lowercase letters and digits
(the source strip removes every character outside a-z0-9). -/
def stripTok (w : List Char) : List Char :=
  w.filter (fun c => (decide ('a' ≤ c) && decide (c ≤ 'z')) ||
                     (decide ('0' ≤ c) && decide (c ≤ '9')))

/-- Deduplicate keeping the first occurrence (JavaScript Set insertion order). -/
def dedupAux : List (List Char) → List (List Char) → List (List Char)
  | [], _ => []
  | w :: ws, seen => if w ∈ seen then dedupAux ws seen else w :: dedupAux ws (w :: seen)

def dedupToks (l : List (List Char)) : List (List Char) :=
  dedupAux l []

/-- The token set of a lowercased message: split on whitespace, strip
punctuation, drop empty results, deduplicate — the Set built in
areSimilarEntries in caption-copyer.js. -/
def tokenSet (msg : List Char) : List (List Char) :=
  dedupToks ((wordsOf msg).map stripTok |>.filter (fun w => w ≠ []))

/-- Number of elements of the first set also present in the second
(the overlap counter loop of areSimilarEntries). -/
def overlapCount (smaller larger : List (List Char)) : Nat :=
  (smaller.filter (fun w => w ∈ larger)).length

/-- Index of the first occurrence of the two-character separator
colon-space, as in the JavaScript indexOf. -/
def sepIdxAux : List Char → Option Nat
  | [] => none
  | [_] => none
  | ':' :: ' ' :: _ => some 0
  | _ :: cs => (sepIdxAux cs).map (· + 1)

/-- Speaker label of an entry: the part before the first colon-space when
that separator occurs at a positive index, otherwise empty
(spkA in areSimilarEntries). -/
def entrySpeaker (a : List Char) : List Char :=
  match sepIdxAux a with
  | some i => if 0 < i then a.take i else []
  | none => []

/-- Message part of an entry, lowercased: the part after the first
colon-space when that separator occurs at a positive index, otherwise the
whole entry (msgA in areSimilarEntries). Lowercasing is ASCII. -/
def entryMessage (a : List Char) : List Char :=
  match sepIdxAux a with
  | some i => if 0 < i then (a.drop (i + 2)).map Char.toLower else a.map Char.toLower
  | none => a.map Char.toLower

/-- areSimilarEntries from caption-copyer.js. The 0.6 ratio test
overlap divided by size is modelled exactly as 5 * overlap >= 3 * size,
which agrees with the double comparison for the small set sizes that
occur (word sets of caption lines). -/
def areSimilarEntries (a b : String) : Bool :=
  let spkA := entrySpeaker a.data
  let spkB := entrySpeaker b.data
  if spkA ≠ [] ∧ spkB ≠ [] ∧ spkA ≠ spkB then false
  else
    let msgA := entryMessage a.data
    let msgB := entryMessage b.data
    if msgA.isPrefixOf msgB ∨ msgB.isPrefixOf msgA then true
    else
      let setA := tokenSet msgA
      let setB := tokenSet msgB
      if setA.length < 3 ∨ setB.length < 3 then false
      else
        let smaller := if setA.length ≤ setB.length then setA else setB
        let larger := if setA.length ≤ setB.length then setB else setA
        decide (5 * overlapCount smaller larger ≥ 3 * smaller.length)

/-- Length of the longest common leading run of two character lists
(prefixLen in caption-copyer.js). -/
def commonLead : List Char → List Char → Nat
  | a :: as, b :: bs => if a = b then commonLead as bs + 1 else 0
  | _, _ => 0

/-- stillVisible from caption-copyer.js. The fuzzy middle test compares
the common leading run against 0.6 times the shorter length using
JavaScript doubles; that comparison is abstracted as the parameter fuzzy,
applied to the common run length and the shorter length. -/
def stillVisible (fuzzy : Nat → Nat → Bool) (text : String) (currentTexts : List String) : Bool :=
  currentTexts.any (fun cur =>
    cur == text ||
    text.data.isPrefixOf cur.data ||
    ((decide (text.length > 10) && decide (cur.length > 10)) &&
      fuzzy (commonLead text.data cur.data) (min text.length cur.length)) ||
    areSimilarEntries text cur)

/-! Service-worker transcript engine (service-worker.js). -/

/-- CaptionObservation sent by the content scripts: one visible line. -/
structure Caption where
  speaker : String
  text : String
deriving Repr, DecidableEq

/-- CommittedBlock of the transcript store. -/
structure Block where
  speaker : String
  text : String
  timestamp : Nat
deriving Repr, DecidableEq

/-- Service-worker state: the fields of the module state touched by the
transcript pipeline. Timestamps are passed to each operation as the value
Date.now() would return. -/
structure SWState where
  active : Bool
  hasTranslateTab : Bool
  committedBlocks : List Block
  lastVisibleCaptions : List Caption
  fullTranscript : List Block
  translateDirty : Bool
  pendingCorrectionId : Nat
deriving Repr, DecidableEq

/-- Key used by handleCaptionBatch to compare captions structurally:
speaker + colon + text. -/
def capKey (c : Caption) : String :=
  c.speaker ++ ":" ++ c.text

/-- commitCaption from service-worker.js: merge a finalized caption into
the committed blocks. Text lengths are the JavaScript string lengths
(equal to character counts on ASCII text). -/
def commitCaption (blocks : List Block) (speaker text : String) (now : Nat) : List Block :=
  if text = "" then blocks
  else
    match blocks.getLast? with
    | some last =>
      if last.speaker = speaker ∧ last.text = text then blocks
      else if last.speaker = speaker then
        if text.length > last.text.length ∨ ¬ (last.text.data.take 10).isPrefixOf text.data then
          blocks.dropLast ++ [{ last with text := text }]
        else blocks
      else blocks ++ [⟨speaker, text, now⟩]
    | none => blocks ++ [⟨speaker, text, now⟩]

/-- The previous captions that handleCaptionBatch commits: those with no
exact key match in the new batch when both lists are non-empty, and all
of them when the new batch is empty. -/
def batchCommits (oldV newV : List Caption) : List Caption :=
  if oldV ≠ [] ∧ newV ≠ [] then
    oldV.filter (fun o => decide (capKey o ∉ newV.map capKey))
  else if oldV ≠ [] ∧ newV = [] then oldV
  else []

/-- Fold a list of disappeared captions into the committed blocks in order. -/
def commitFold (blocks : List Block) (caps : List Caption) (now : Nat) : List Block :=
  caps.foldl (fun bs c => commitCaption bs c.speaker c.text now) blocks

/-- One step of rebuildTranscript: a visible caption merges into the last
block when the speakers match, otherwise starts a new block. -/
def rebuildStep (now : Nat) (result : List Block) (cap : Caption) : List Block :=
  match result.getLast? with
  | some last =>
    if last.speaker = cap.speaker then
      result.dropLast ++ [{ last with text := cap.text, timestamp := now }]
    else result ++ [⟨cap.speaker, cap.text, now⟩]
  | none => [⟨cap.speaker, cap.text, now⟩]

/-- rebuildTranscript from service-worker.js: committed blocks followed by
the visible captions, merging same-speaker continuations. -/
def rebuildTranscript (blocks : List Block) (visible : List Caption) (now : Nat) : List Block :=
  visible.foldl (rebuildStep now) blocks

/-- handleCaptionBatch from service-worker.js, projected to the transcript
state (tab bookkeeping and the debounce timer are outside the model). -/
def handleCaptionBatch (s : SWState) (captions : List Caption) (now : Nat) : SWState :=
  if ¬ s.active then s
  else if captions = [] ∧ s.lastVisibleCaptions = [] then s
  else
    let committed := commitFold s.committedBlocks (batchCommits s.lastVisibleCaptions captions) now
    { s with
      committedBlocks := committed,
      lastVisibleCaptions := captions,
      fullTranscript := rebuildTranscript committed captions now,
      translateDirty := true }

/-- clearConversationHistory from service-worker.js, projected to the
transcript state: empties the transcript atomically and advances the
correction generation. -/
def clearConversationHistory (s : SWState) : SWState :=
  { s with
    fullTranscript := [],
    lastVisibleCaptions := [],
    committedBlocks := [],
    translateDirty := false,
    pendingCorrectionId := s.pendingCorrectionId + 1 }

/-- handleActivate, projected to the transcript state. -/
def handleActivate (s : SWState) : SWState :=
  { s with
    active := true,
    hasTranslateTab := true,
    fullTranscript := [],
    lastVisibleCaptions := [],
    committedBlocks := [],
    translateDirty := false }

/-- handleDeactivate, projected to the transcript state. -/
def handleDeactivate (s : SWState) : SWState :=
  { s with
    active := false,
    hasTranslateTab := false,
    fullTranscript := [],
    lastVisibleCaptions := [],
    committedBlocks := [],
    translateDirty := false,
    pendingCorrectionId := s.pendingCorrectionId + 1 }

/-- The state of a fresh service worker. -/
def initialState : SWState :=
  { active := false, hasTranslateTab := false, committedBlocks := [],
    lastVisibleCaptions := [], fullTranscript := [], translateDirty := false,
    pendingCorrectionId := 0 }

/-- Completion of correctLastBlockAsync: the corrected text is applied to
the block only when the captured generation id still equals the live
generation, the provider returned a non-empty text different from the
original, and the block text is still the captured original. The empty
string stands for a falsy correction result. -/
def applyCorrection (id liveId : Nat) (originalText corrected : String) (block : Block) : Block :=
  if id = liveId ∧ corrected ≠ "" ∧ corrected ≠ originalText ∧ block.text = originalText then
    { block with text := corrected }
  else block

/-! Translate sink (translate-bridge.js) and the flush scheduler. -/

/-- Block shape sent to the translate bridge: speaker and text only. -/
structure SinkBlock where
  speaker : String
  text : String
deriving Repr, DecidableEq

/-- Messages the translate bridge understands. -/
inductive SinkMsg where
  | setBlocks (blocks : List SinkBlock)
  | appendBlock (speaker text : String)
  | updateLive (speaker text : String)
  | clearTranslation
deriving Repr, DecidableEq

/-- Last n elements of a list (JavaScript slice with a negative index). -/
def lastN (n : Nat) (l : List α) : List α :=
  l.drop (l.length - n)

/-- Projection of a transcript block to the shape sent to the sink. -/
def toSinkBlock (b : Block) : SinkBlock :=
  ⟨b.speaker, b.text⟩

/-- The message flushToTranslate sends, if any: the last 10 transcript
blocks reduced to speaker and text, as a full replacement. -/
def flushMessage (s : SWState) : Option SinkMsg :=
  if ¬ s.hasTranslateTab ∨ ¬ s.translateDirty then none
  else if s.fullTranscript = [] then none
  else some (SinkMsg.setBlocks ((lastN 10 s.fullTranscript).map toSinkBlock))

/-- updateLastBlock of the translate bridge. -/
def bridgeUpdateLast (spk txt : String) (blocks : List SinkBlock) : List SinkBlock :=
  match blocks.getLast? with
  | some last =>
    if last.speaker = spk then blocks.dropLast ++ [⟨spk, txt⟩]
    else blocks ++ [⟨spk, txt⟩]
  | none => [⟨spk, txt⟩]

/-- Effect of a message on the bridge block buffer (translate-bridge.js
message listener): setBlocks replaces the whole buffer, appendBlock pushes,
updateLive merges into the last block, clearTranslation empties. -/
def bridgeApply (m : SinkMsg) (old : List SinkBlock) : List SinkBlock :=
  match m with
  | .setBlocks bs => bs
  | .appendBlock spk txt => old ++ [⟨spk, txt⟩]
  | .updateLive spk txt => bridgeUpdateLast spk txt old
  | .clearTranslation => []

/-! Selector-based source discovery (searchBySelectors in caption-copyer.js). -/

/-- Discovery state: the attached caption container and the pending
candidate (element, recorded text, record time). Elements are named by
numbers. -/
structure SearchState where
  attached : Option Nat
  pending : Option (Nat × String × Nat)
deriving Repr, DecidableEq

/-- Environment of one search tick: which elements the document contains,
which are visible, the trimmed text of each element, the elements found by
the container selectors in selector order, and the clock. -/
structure TickEnv where
  inDoc : Nat → Bool
  visible : Nat → Bool
  textOf : Nat → String
  selectorHits : List Nat
  now : Nat

/-- True when a container is attached and still in the document. -/
def attachedLive (env : TickEnv) (s : SearchState) : Bool :=
  match s.attached with
  | some c => env.inDoc c
  | none => false

/-- The selector scan loop: the first visible hit whose trimmed text is
non-empty and caption-shaped, together with that text. The caption-shape
classifier looksLikeCaptions is the parameter looks. -/
def scanSelectors (looks : String → Bool) (env : TickEnv) : Option (Nat × String) :=
  (env.selectorHits.find? (fun el =>
    env.visible el && env.textOf el != "" && looks (env.textOf el))).map
    (fun el => (el, env.textOf el))

/-- Tail of searchBySelectors once the pending candidate has been dropped:
the attached container is cleared and the selector scan may record a new
pending candidate with the current time. -/
def fallThroughScan (looks : String → Bool) (env : TickEnv) : SearchState :=
  { attached := none,
    pending := (scanSelectors looks env).map (fun p => (p.1, p.2, env.now)) }

/-- One tick of searchBySelectors from caption-copyer.js. A pending
candidate is promoted (attached) when its text is in the document,
changed from the recorded text, non-empty and caption-shaped; otherwise it
is kept until more than 10000 ms have passed since it was recorded, and
then dropped in favour of a fresh scan. -/
def searchTick (looks : String → Bool) (env : TickEnv) (s : SearchState) : SearchState :=
  if attachedLive env s then { s with pending := none }
  else
    match s.pending with
    | some (el, txt, ts) =>
      if env.inDoc el then
        if env.textOf el ≠ txt ∧ env.textOf el ≠ "" ∧ looks (env.textOf el) = true then
          { attached := some el, pending := none }
        else if env.now - ts > 10000 then fallThroughScan looks env
        else s
      else fallThroughScan looks env
    | none => fallThroughScan looks env

/-- Iterated search ticks under a stream of environments. -/
def searchRun (looks : String → Bool) (envs : Nat → TickEnv) (s0 : SearchState) : Nat → SearchState
  | 0 => s0
  | n + 1 => searchTick looks (envs n) (searchRun looks envs s0 n)

/-! Reachable service-worker states. -/

/-- States reachable from a fresh service worker through the operations
that touch the committed blocks. -/
inductive Reachable : SWState → Prop where
  | init : Reachable initialState
  | batch : ∀ {s} (caps : List Caption) (now : Nat), Reachable s → Reachable (handleCaptionBatch s caps now)
  | clear : ∀ {s}, Reachable s → Reachable (clearConversationHistory s)
  | activate : ∀ {s}, Reachable s → Reachable (handleActivate s)
  | deactivate : ∀ {s}, Reachable s → Reachable (handleDeactivate s)

/-! Helper lemmas about commitCaption and its fold. -/

theorem commitCaption_length_le (blocks : List Block) (speaker text : String) (now : Nat) :
    blocks.length ≤ (commitCaption blocks speaker text now).length := by
  by_cases h : text = ""
  · simp [commitCaption, h]
  rcases List.eq_nil_or_concat blocks with rfl | ⟨init, last, rfl⟩
  · simp [commitCaption, h]
  · rw [List.concat_eq_append]
    simp only [commitCaption, h, ite_false, List.getLast?_concat, List.dropLast_concat]
    split_ifs <;> simp

theorem commitCaption_speakers (blocks : List Block) (speaker text : String) (now : Nat) :
    ∃ t, (commitCaption blocks speaker text now).map Block.speaker =
      blocks.map Block.speaker ++ t := by
  by_cases h : text = ""
  · exact ⟨[], by simp [commitCaption, h]⟩
  rcases List.eq_nil_or_concat blocks with rfl | ⟨init, last, rfl⟩
  · exact ⟨[speaker], by simp [commitCaption, h]⟩
  · rw [List.concat_eq_append]
    simp only [commitCaption, h, ite_false, List.getLast?_concat, List.dropLast_concat]
    split_ifs with h1 h2 h3
    · exact ⟨[], by simp⟩
    · exact ⟨[], by simp [h2]⟩
    · exact ⟨[], by simp⟩
    · exact ⟨[speaker], by simp⟩

theorem commitCaption_text_ne (blocks : List Block) (speaker text : String) (now : Nat)
    (h : ∀ b ∈ blocks, b.text ≠ "") :
    ∀ b ∈ commitCaption blocks speaker text now, b.text ≠ "" := by
  by_cases ht : text = ""
  · simpa [commitCaption, ht] using h
  rcases List.eq_nil_or_concat blocks with rfl | ⟨init, last, rfl⟩
  · simp [commitCaption, ht]
  · rw [List.concat_eq_append] at h ⊢
    simp only [commitCaption, ht, ite_false, List.getLast?_concat, List.dropLast_concat]
    split_ifs with h1 h2 h3
    · exact h
    · intro b hb
      rcases List.mem_append.1 hb with hb | hb
      · exact h b (List.mem_append.2 (Or.inl hb))
      · simp only [List.mem_singleton] at hb
        subst hb
        exact ht
    · exact h
    · intro b hb
      rcases List.mem_append.1 hb with hb | hb
      · exact h b hb
      · simp only [List.mem_singleton] at hb
        subst hb
        exact ht

theorem commitFold_length_le (caps : List Caption) (blocks : List Block) (now : Nat) :
    blocks.length ≤ (commitFold blocks caps now).length := by
  induction caps generalizing blocks with
  | nil => simp [commitFold]
  | cons c cs ih =>
    calc blocks.length ≤ (commitCaption blocks c.speaker c.text now).length :=
          commitCaption_length_le ..
      _ ≤ _ := ih _

theorem commitFold_speakers (caps : List Caption) (blocks : List Block) (now : Nat) :
    ∃ t, (commitFold blocks caps now).map Block.speaker = blocks.map Block.speaker ++ t := by
  induction caps generalizing blocks with
  | nil => exact ⟨[], by simp [commitFold]⟩
  | cons c cs ih =>
    obtain ⟨t₁, ht₁⟩ := commitCaption_speakers blocks c.speaker c.text now
    obtain ⟨t₂, ht₂⟩ := ih (commitCaption blocks c.speaker c.text now)
    exact ⟨t₁ ++ t₂, by simp [commitFold] at ht₂ ⊢; rw [ht₂, ht₁, List.append_assoc]⟩

theorem commitFold_text_ne (caps : List Caption) (blocks : List Block) (now : Nat)
    (h : ∀ b ∈ blocks, b.text ≠ "") :
    ∀ b ∈ commitFold blocks caps now, b.text ≠ "" := by
  induction caps generalizing blocks with
  | nil => simpa [commitFold] using h
  | cons c cs ih =>
    exact ih _ (commitCaption_text_ne blocks c.speaker c.text now h)

/-! Claim C1: the commit rule. -/

/-- C1: when an observation with a non-empty text is committed, then with a
non-empty store whose last block has the same speaker: an identical text is
ignored; a different text replaces the old text exactly when the new text
is strictly longer or does not start with the first 10 characters of the
old text, and otherwise the old text is kept; with an empty store or a
different last speaker a new block with the fresh timestamp is appended.
(Committing an empty text is a no-op, settled separately by claim C10.) -/
theorem C1_commit_rule (blocks : List Block) (speaker text : String) (now : Nat)
    (hne : text ≠ "") :
    (∀ init last, blocks = init ++ [last] → last.speaker = speaker → last.text = text →
        commitCaption blocks speaker text now = blocks) ∧
    (∀ init last, blocks = init ++ [last] → last.speaker = speaker → last.text ≠ text →
        ((text.length > last.text.length ∨ ¬ (last.text.data.take 10).isPrefixOf text.data →
            commitCaption blocks speaker text now = init ++ [{ last with text := text }]) ∧
         (text.length ≤ last.text.length → (last.text.data.take 10).isPrefixOf text.data →
            commitCaption blocks speaker text now = blocks))) ∧
    (blocks = [] → commitCaption blocks speaker text now = [⟨speaker, text, now⟩]) ∧
    (∀ init last, blocks = init ++ [last] → last.speaker ≠ speaker →
        commitCaption blocks speaker text now = blocks ++ [⟨speaker, text, now⟩]) := by
  refine ⟨?_, ?_, ?_, ?_⟩
  · rintro init last rfl hspk htxt
    simp [commitCaption, hne, List.getLast?_concat, hspk, htxt]
  · rintro init last rfl hspk htxt
    constructor
    · intro hrep
      simp only [commitCaption, hne, ite_false, List.getLast?_concat, List.dropLast_concat]
      rw [if_neg (by simp [htxt]), if_pos hspk, if_pos hrep]
    · intro hlen hpre
      simp only [commitCaption, hne, ite_false, List.getLast?_concat, List.dropLast_concat]
      rw [if_neg (by simp [htxt]), if_pos hspk, if_neg (by push_neg; exact ⟨by omega, hpre⟩)]
  · rintro rfl
    simp [commitCaption, hne]
  · rintro init last rfl hspk
    simp only [commitCaption, hne, ite_false, List.getLast?_concat, List.dropLast_concat]
    rw [if_neg (by simp [hspk]), if_neg hspk]

/-- C1 witness: committing to an empty store appends a fresh block. -/
theorem C1_commit_rule_witness :
    commitCaption [] "A" "Hi" 7 = [⟨"A", "Hi", 7⟩] :=
  (C1_commit_rule [] "A" "Hi" 7 (by decide)).2.2.1 rfl

/-! Claim C2: disappearance detection. -/

/-- State with one visible caption A, Hi over an empty store, the rebuilt
transcript included, used by the C2 counterexample. -/
def prefixBatchState : SWState :=
  { active := true, hasTranslateTab := true, committedBlocks := [],
    lastVisibleCaptions := [⟨"A", "Hi"⟩],
    fullTranscript := rebuildTranscript [] [⟨"A", "Hi"⟩] 0,
    translateDirty := false, pendingCorrectionId := 0 }

/-- C2 counterexample: a previous observation A, Hi whose text is a proper
leading part of the current observation A, Hi there IS committed by
handleCaptionBatch on that tick (a block is appended to the empty store),
contradicting the claim that prefix matches prevent the commit. -/
theorem C2_counterexample :
    "Hi".data.isPrefixOf "Hi there".data = true ∧ "Hi" ≠ "Hi there" ∧
    (handleCaptionBatch prefixBatchState [⟨"A", "Hi there"⟩] 5).committedBlocks =
      [⟨"A", "Hi", 5⟩] := by decide

/-- C2 amended: the background diff engine commits a previous observation
exactly when no current observation matches it by exact key
(speaker colon text); when the current batch is empty every previous
observation is committed; handleCaptionBatch folds exactly these commits
into the store. Prefix and similarity matching exist only in the
caption-copyer local capture path, whose stillVisible keeps a previous
text that is a leading part of a current text from being pushed. -/
theorem C2_amended_exact_diff :
    (∀ (oldV newV : List Caption) (o : Caption), newV ≠ [] →
        (o ∈ batchCommits oldV newV ↔ o ∈ oldV ∧ capKey o ∉ newV.map capKey)) ∧
    (∀ oldV : List Caption, oldV ≠ [] → batchCommits oldV [] = oldV) ∧
    (∀ (s : SWState) (caps : List Caption) (now : Nat), s.active = true →
        ¬ (caps = [] ∧ s.lastVisibleCaptions = []) →
        (handleCaptionBatch s caps now).committedBlocks =
          commitFold s.committedBlocks (batchCommits s.lastVisibleCaptions caps) now) ∧
    (∀ (fuzzy : Nat → Nat → Bool) (text cur : String) (currentTexts : List String),
        cur ∈ currentTexts → text.data.isPrefixOf cur.data = true →
        stillVisible fuzzy text currentTexts = true) := by
  refine ⟨?_, ?_, ?_, ?_⟩
  · intro oldV newV o hnew
    by_cases hold : oldV = []
    · subst hold
      simp [batchCommits]
    · simp [batchCommits, hold, hnew, List.mem_filter]
  · intro oldV hold
    simp [batchCommits, hold]
  · intro s caps now hact hneg
    simp [handleCaptionBatch, hact, hneg]
  · intro fuzzy text cur currentTexts hmem hpre
    refine List.any_eq_true.2 ⟨cur, hmem, ?_⟩
    simp [hpre]

/-- C2 witness: with current batch A, Hi there, the previous observation
A, Hi is among the commits computed by the diff. -/
theorem C2_amended_exact_diff_witness :
    (⟨"A", "Hi"⟩ : Caption) ∈ batchCommits [⟨"A", "Hi"⟩] [⟨"A", "Hi there"⟩] :=
  (C2_amended_exact_diff.1 [⟨"A", "Hi"⟩] [⟨"A", "Hi there"⟩] ⟨"A", "Hi"⟩
    (by decide)).2 ⟨by decide, by decide⟩

/-! Claim C3: non-decreasing transcript length. -/

/-- State with three visible captions A, B, A over an empty store, the
rebuilt transcript (of length 3) included, used by the C3 counterexample. -/
def shrinkBatchState : SWState :=
  { active := true, hasTranslateTab := true, committedBlocks := [],
    lastVisibleCaptions := [⟨"A", "x"⟩, ⟨"B", "y"⟩, ⟨"A", "z"⟩],
    fullTranscript := rebuildTranscript [] [⟨"A", "x"⟩, ⟨"B", "y"⟩, ⟨"A", "z"⟩] 0,
    translateDirty := false, pendingCorrectionId := 0 }

/-- C3 counterexample: a delivered caption batch, with no intervening
clear, shrinks the externally visible transcript. The visible lines
A, x and A, z disappear and their commits merge into a single committed
block, so the rebuilt transcript drops from 3 blocks to 2. -/
theorem C3_counterexample :
    (handleCaptionBatch shrinkBatchState [⟨"B", "y"⟩] 1).fullTranscript.length
      < shrinkBatchState.fullTranscript.length := by decide

/-- C3 amended: the committed-blocks part of the transcript never loses a
block under caption-batch handling, and an explicit clear atomically
empties the committed blocks, the rebuilt transcript and the visible tail.
The rebuilt transcript itself (committed blocks plus visible tail) can
shrink without a clear, as the counterexample shows. -/
theorem C3_amended_committed_monotone :
    (∀ (s : SWState) (caps : List Caption) (now : Nat),
        s.committedBlocks.length ≤ (handleCaptionBatch s caps now).committedBlocks.length) ∧
    (∀ s : SWState, (clearConversationHistory s).committedBlocks = [] ∧
        (clearConversationHistory s).fullTranscript = [] ∧
        (clearConversationHistory s).lastVisibleCaptions = []) := by
  constructor
  · intro s caps now
    by_cases hact : s.active
    · by_cases htriv : caps = [] ∧ s.lastVisibleCaptions = []
      · simp [handleCaptionBatch, hact, htriv]
      · simp only [handleCaptionBatch, hact, htriv, not_true, not_false_iff,
          ite_false, ite_true]
        exact commitFold_length_le ..
    · simp [handleCaptionBatch, hact]
  · intro s
    exact ⟨rfl, rfl, rfl⟩

/-! Claim C4: the similarity judgment. -/

/-- The smaller of the two token sets compared by areSimilarEntries
(ties resolved to the first, as in the source). -/
def smallerTokSet (a b : String) : List (List Char) :=
  if (tokenSet (entryMessage a.data)).length ≤ (tokenSet (entryMessage b.data)).length
  then tokenSet (entryMessage a.data) else tokenSet (entryMessage b.data)

/-- The larger of the two token sets compared by areSimilarEntries. -/
def largerTokSet (a b : String) : List (List Char) :=
  if (tokenSet (entryMessage a.data)).length ≤ (tokenSet (entryMessage b.data)).length
  then tokenSet (entryMessage b.data) else tokenSet (entryMessage a.data)

/-- C4 counterexample: the entries alpha beta and beta alpha carry empty
speaker labels and have word-set overlap ratio 1 (at least 0.6) over the
smaller set, yet areSimilarEntries judges them NOT similar, because both
token sets have fewer than 3 elements. -/
theorem C4_counterexample :
    entrySpeaker "alpha beta".data = [] ∧ entrySpeaker "beta alpha".data = [] ∧
    5 * overlapCount (tokenSet (entryMessage "alpha beta".data))
        (tokenSet (entryMessage "beta alpha".data)) ≥
      3 * (tokenSet (entryMessage "alpha beta".data)).length ∧
    areSimilarEntries "alpha beta" "beta alpha" = false := by decide

/-- C4 amended: two entries are judged similar exactly when their speaker
labels are compatible (at least one empty, or equal) and either one
lowercased message is a leading part of the other (with no minimum
length), or both punctuation-stripped word sets have at least 3 elements
and the overlap over the smaller set is at least 0.6. Overlap ratio at
least 0.6 alone is not sufficient when a word set has fewer than 3
elements. -/
theorem C4_amended_similarity (a b : String) :
    areSimilarEntries a b = true ↔
      (entrySpeaker a.data = [] ∨ entrySpeaker b.data = [] ∨
        entrySpeaker a.data = entrySpeaker b.data) ∧
      ((entryMessage a.data).isPrefixOf (entryMessage b.data) = true ∨
       (entryMessage b.data).isPrefixOf (entryMessage a.data) = true ∨
       (3 ≤ (tokenSet (entryMessage a.data)).length ∧
        3 ≤ (tokenSet (entryMessage b.data)).length ∧
        5 * overlapCount (smallerTokSet a b) (largerTokSet a b) ≥
          3 * (smallerTokSet a b).length)) := by
  have hspk : ¬ (entrySpeaker a.data ≠ [] ∧ entrySpeaker b.data ≠ [] ∧
      entrySpeaker a.data ≠ entrySpeaker b.data) →
      (entrySpeaker a.data = [] ∨ entrySpeaker b.data = [] ∨
        entrySpeaker a.data = entrySpeaker b.data) := by
    intro h
    push_neg at h
    by_cases ha : entrySpeaker a.data = []
    · exact Or.inl ha
    · by_cases hb : entrySpeaker b.data = []
      · exact Or.inr (Or.inl hb)
      · exact Or.inr (Or.inr (h ha hb))
  simp only [areSimilarEntries]
  split_ifs with h1 h2 h3 h4
  · simp only [Bool.false_eq_true, false_iff, not_and]
    rintro hsp
    rcases hsp with h | h | h
    · exact absurd h h1.1
    · exact absurd h h1.2.1
    · exact absurd h h1.2.2
  · simp only [true_iff]
    refine ⟨hspk h1, ?_⟩
    rcases h2 with h | h
    · exact Or.inl h
    · exact Or.inr (Or.inl h)
  · simp only [Bool.false_eq_true, false_iff, not_and]
    push_neg at h2
    rintro - (h | h | ⟨hA, hB, -⟩)
    · exact absurd h h2.1
    · exact absurd h h2.2
    · rcases h3 with h3 | h3 <;> omega
  · push_neg at h2 h3
    rw [smallerTokSet, largerTokSet, if_pos h4, if_pos h4]
    simp only [decide_eq_true_eq]
    constructor
    · intro hratio
      exact ⟨hspk h1, Or.inr (Or.inr ⟨h3.1, h3.2, hratio⟩)⟩
    · rintro ⟨-, h | h | ⟨-, -, hratio⟩⟩
      · exact absurd h h2.1
      · exact absurd h h2.2
      · exact hratio
  · push_neg at h2 h3
    rw [smallerTokSet, largerTokSet, if_neg h4, if_neg h4]
    simp only [decide_eq_true_eq]
    constructor
    · intro hratio
      exact ⟨hspk h1, Or.inr (Or.inr ⟨h3.1, h3.2, hratio⟩)⟩
    · rintro ⟨-, h | h | ⟨-, -, hratio⟩⟩
      · exact absurd h h2.1
      · exact absurd h h2.2
      · exact hratio

/-! Claim C5: idempotence of snapshot delivery. -/

theorem batchCommits_self (v : List Caption) : batchCommits v v = [] := by
  by_cases hv : v = []
  · simp [batchCommits, hv]
  · simp only [batchCommits, ne_eq, hv, not_false_iff, and_self, ite_true]
    rw [List.filter_eq_nil_iff]
    intro o ho
    simp only [decide_eq_true_eq, Decidable.not_not]
    exact List.mem_map_of_mem _ ho

/-- C5: delivering a caption batch identical to the previously delivered
batch (the stored lastVisibleCaptions) produces no new committed block and
does not mutate the transcript: committed blocks, visible tail and the
rebuilt transcript are all unchanged (the state is consistent with a
rebuild at the delivery time, so even the provisional tail timestamps are
identical). -/
theorem C5_idempotent (s : SWState) (now : Nat) (hact : s.active = true)
    (hcons : s.fullTranscript = rebuildTranscript s.committedBlocks s.lastVisibleCaptions now) :
    (handleCaptionBatch s s.lastVisibleCaptions now).committedBlocks = s.committedBlocks ∧
    (handleCaptionBatch s s.lastVisibleCaptions now).lastVisibleCaptions =
      s.lastVisibleCaptions ∧
    (handleCaptionBatch s s.lastVisibleCaptions now).fullTranscript = s.fullTranscript := by
  by_cases hv : s.lastVisibleCaptions = []
  · simp [handleCaptionBatch, hact, hv]
  · have hguard : ¬ (s.lastVisibleCaptions = [] ∧ s.lastVisibleCaptions = []) := by
      simp [hv]
    simp only [handleCaptionBatch, hact, not_true, ite_false, hguard, batchCommits_self,
      commitFold, List.foldl_nil]
    exact ⟨trivial, trivial, hcons.symm⟩

/-- Consistent state used by the C5 witness: one committed block, one
visible caption, transcript rebuilt at time 3. -/
def idemState : SWState :=
  { active := true, hasTranslateTab := true, committedBlocks := [⟨"A", "one", 0⟩],
    lastVisibleCaptions := [⟨"B", "two"⟩],
    fullTranscript := rebuildTranscript [⟨"A", "one", 0⟩] [⟨"B", "two"⟩] 3,
    translateDirty := true, pendingCorrectionId := 0 }

/-- C5 witness: redelivering the identical batch to idemState at time 3
leaves committed blocks, visible tail and transcript unchanged. -/
theorem C5_idempotent_witness :
    (handleCaptionBatch idemState idemState.lastVisibleCaptions 3).committedBlocks =
      idemState.committedBlocks ∧
    (handleCaptionBatch idemState idemState.lastVisibleCaptions 3).lastVisibleCaptions =
      idemState.lastVisibleCaptions ∧
    (handleCaptionBatch idemState idemState.lastVisibleCaptions 3).fullTranscript =
      idemState.fullTranscript :=
  C5_idempotent idemState 3 rfl rfl

/-! Claim C6: the correction staleness guard. -/

/-- C6: a completed spelling correction started at generation g is applied
only when g still equals the live generation and the block text still
equals the text captured at request time; when the generation advanced or
the text changed, the result is discarded and the block is unchanged; in
particular after clearConversationHistory (which advances the generation
past any captured value) every in-flight correction is discarded. -/
theorem C6_correction_staleness (g live : Nat) (orig corr : String) (b : Block) :
    ((g ≠ live ∨ b.text ≠ orig) → applyCorrection g live orig corr b = b) ∧
    (applyCorrection g live orig corr b ≠ b → g = live ∧ b.text = orig) ∧
    (∀ s : SWState, g ≤ s.pendingCorrectionId →
        applyCorrection g (clearConversationHistory s).pendingCorrectionId orig corr b = b) := by
  refine ⟨?_, ?_, ?_⟩
  · intro h
    unfold applyCorrection
    rw [if_neg]
    rintro ⟨h1, -, -, h4⟩
    rcases h with h | h
    · exact h h1
    · exact h h4
  · intro hne
    by_cases hc : g = live ∧ corr ≠ "" ∧ corr ≠ orig ∧ b.text = orig
    · exact ⟨hc.1, hc.2.2.2⟩
    · exact absurd (by unfold applyCorrection; rw [if_neg hc]) hne
  · intro s hg
    unfold applyCorrection
    rw [if_neg]
    rintro ⟨h1, -, -, -⟩
    simp only [clearConversationHistory] at h1
    omega

/-- C6 witness: a correction captured at generation 1 resolving while the
live generation is 2 leaves the block unchanged. -/
theorem C6_correction_staleness_witness :
    applyCorrection 1 2 "abc" "abd" ⟨"A", "abc", 0⟩ = ⟨"A", "abc", 0⟩ :=
  (C6_correction_staleness 1 2 "abc" "abd" ⟨"A", "abc", 0⟩).1 (Or.inl (by decide))

/-! Claim C7: full-replace flush. -/

/-- C7: every message the flush scheduler sends to the translation sink is
a setBlocks message carrying exactly the last 10 transcript blocks reduced
to speaker and text; it is never an append request; and applying it at the
bridge replaces the whole block buffer with the received list whatever the
buffer held before. -/
theorem C7_full_replace_flush (s : SWState) (m : SinkMsg)
    (hm : flushMessage s = some m) :
    m = SinkMsg.setBlocks ((lastN 10 s.fullTranscript).map toSinkBlock) ∧
    (∀ old, bridgeApply m old = (lastN 10 s.fullTranscript).map toSinkBlock) ∧
    (∀ spk txt, m ≠ SinkMsg.appendBlock spk txt) := by
  have hset : m = SinkMsg.setBlocks ((lastN 10 s.fullTranscript).map toSinkBlock) := by
    unfold flushMessage at hm
    split_ifs at hm
    exact (Option.some_inj.1 hm).symm
  refine ⟨hset, ?_, ?_⟩
  · intro old
    rw [hset]
    rfl
  · intro spk txt
    rw [hset]
    simp

/-- Dirty state used by the C7 witness. -/
def flushState : SWState :=
  { active := true, hasTranslateTab := true, committedBlocks := [⟨"A", "one", 0⟩],
    lastVisibleCaptions := [⟨"B", "two"⟩],
    fullTranscript := rebuildTranscript [⟨"A", "one", 0⟩] [⟨"B", "two"⟩] 1,
    translateDirty := true, pendingCorrectionId := 0 }

/-- C7 witness: the message flushed from flushState is the full-replace
setBlocks of its transcript tail. -/
theorem C7_full_replace_flush_witness :
    SinkMsg.setBlocks [⟨"A", "one"⟩, ⟨"B", "two"⟩] =
      SinkMsg.setBlocks ((lastN 10 flushState.fullTranscript).map toSinkBlock) :=
  (C7_full_replace_flush flushState (SinkMsg.setBlocks [⟨"A", "one"⟩, ⟨"B", "two"⟩])
    (by decide)).1

/-! Claim C8: speaker immutability. -/

/-- C8: no operation changes the speaker of an existing committed block:
commitCaption and a whole caption batch only extend the sequence of
committed speakers (every existing position keeps its speaker, in order),
and an applied correction never touches the speaker of the corrected
block. Rebuild and flush read the committed blocks without mutating them,
which the purely functional embedding makes immediate. -/
theorem C8_speaker_immutable :
    (∀ (blocks : List Block) (speaker text : String) (now : Nat), ∃ t,
        (commitCaption blocks speaker text now).map Block.speaker =
          blocks.map Block.speaker ++ t) ∧
    (∀ (s : SWState) (caps : List Caption) (now : Nat), ∃ t,
        (handleCaptionBatch s caps now).committedBlocks.map Block.speaker =
          s.committedBlocks.map Block.speaker ++ t) ∧
    (∀ (g live : Nat) (orig corr : String) (b : Block),
        (applyCorrection g live orig corr b).speaker = b.speaker) := by
  refine ⟨commitCaption_speakers, ?_, ?_⟩
  · intro s caps now
    by_cases hact : s.active
    · by_cases htriv : caps = [] ∧ s.lastVisibleCaptions = []
      · exact ⟨[], by simp [handleCaptionBatch, hact, htriv]⟩
      · simp only [handleCaptionBatch, hact, htriv, not_true, not_false_iff,
          ite_false, ite_true]
        exact commitFold_speakers ..
    · exact ⟨[], by simp [handleCaptionBatch, hact]⟩
  · intro g live orig corr b
    unfold applyCorrection
    split_ifs <;> rfl

/-! Claim C9: pending-candidate promotion and timeout. -/

theorem scanSelectors_text (looks : String → Bool) (env : TickEnv) (el : Nat) (t : String)
    (h : scanSelectors looks env = some (el, t)) : t = env.textOf el := by
  unfold scanSelectors at h
  rcases hf : env.selectorHits.find? (fun e =>
      env.visible e && env.textOf e != "" && looks (env.textOf e)) with _ | e <;>
    rw [hf] at h
  · simp at h
  · simp only [Option.map_some'] at h
    injection h with h2
    injection h2 with h3 h4
    subst h3
    exact h4.symm

theorem fallThroughScan_pending (looks : String → Bool) (env : TickEnv) (el : Nat)
    (t : String) (ts : Nat)
    (h : (fallThroughScan looks env).pending = some (el, t, ts)) :
    t = env.textOf el ∧ ts = env.now := by
  unfold fallThroughScan at h
  rcases hs : scanSelectors looks env with _ | p <;> rw [hs] at h
  · simp at h
  · simp only [Option.map_some'] at h
    injection h with h2
    injection h2 with h3 h4
    injection h4 with h5 h6
    have hp' : scanSelectors looks env = some (p.1, p.2) := hs
    rw [h3, h5] at hp'
    exact ⟨scanSelectors_text looks env el t hp', h6.symm⟩

theorem searchRun_candidate_invariant (looks : String → Bool) (envs : Nat → TickEnv)
    (s0 : SearchState) (el : Nat)
    (h0a : s0.attached ≠ some el) (h0p : s0.pending = none)
    (H : ∀ m n : Nat, ¬ ((envs m).textOf el ≠ (envs n).textOf el ∧
        (envs m).textOf el ≠ "" ∧ looks ((envs m).textOf el) = true)) :
    ∀ n, (searchRun looks envs s0 n).attached ≠ some el ∧
      (∀ t ts, (searchRun looks envs s0 n).pending = some (el, t, ts) →
        ∃ j, t = (envs j).textOf el) := by
  intro n
  induction n with
  | zero =>
    refine ⟨h0a, fun t ts ht => ?_⟩
    rw [searchRun, h0p] at ht
    exact absurd ht (by simp)
  | succ n ih =>
    obtain ⟨iha, ihp⟩ := ih
    have hfall : (fallThroughScan looks (envs n)).attached ≠ some el ∧
        (∀ t ts, (fallThroughScan looks (envs n)).pending = some (el, t, ts) →
          ∃ j, t = (envs j).textOf el) := by
      refine ⟨by simp [fallThroughScan], fun t ts ht => ?_⟩
      exact ⟨n, (fallThroughScan_pending looks (envs n) el t ts ht).1⟩
    rw [searchRun]
    rcases hsr : searchRun looks envs s0 n with ⟨att, pend⟩
    rw [hsr] at iha ihp
    by_cases hlive : attachedLive (envs n) ⟨att, pend⟩ = true
    · rw [searchTick, if_pos hlive]
      exact ⟨iha, by simp⟩
    · rcases pend with _ | ⟨el', t', ts'⟩
      · simpa [searchTick, hlive] using hfall
      · by_cases hdoc : (envs n).inDoc el' = true
        · by_cases hpromo : (envs n).textOf el' ≠ t' ∧ (envs n).textOf el' ≠ "" ∧
              looks ((envs n).textOf el') = true
          · rw [searchTick, if_neg hlive]
            simp only [hdoc, ite_true]
            rw [if_pos hpromo]
            refine ⟨?_, by simp⟩
            intro hcontra
            have hel : el' = el := by
              simpa using hcontra
            subst hel
            obtain ⟨j, hj⟩ := ihp t' ts' rfl
            exact H n j ⟨hj ▸ hpromo.1, hpromo.2.1, hpromo.2.2⟩
          · rw [searchTick, if_neg hlive]
            simp only [hdoc, ite_true]
            rw [if_neg hpromo]
            by_cases htime : (envs n).now - ts' > 10000
            · rw [if_pos htime]
              exact hfall
            · rw [if_neg htime]
              exact ⟨iha, fun t ts ht => ihp t ts ht⟩
        · rw [searchTick, if_neg hlive]
          simp only [hdoc, ite_false]
          exact hfall

/-- C9: a pending selector candidate is promoted to the attached source on
the tick where its text is re-observed in the document as changed,
non-empty and caption-shaped; when no such change is observed and more
than 10000 ms have passed since it was recorded, the next tick discards it
(nothing is attached, and any new pending record is a fresh one stamped
with the current time); and along any run in which no observation of the
element is a caption-shaped change, the element is never attached. -/
theorem C9_pending_candidate (looks : String → Bool) (el : Nat) :
    (∀ (env : TickEnv) (s : SearchState) (txt : String) (ts : Nat),
        s.attached = none → s.pending = some (el, txt, ts) →
        env.inDoc el = true → env.textOf el ≠ txt → env.textOf el ≠ "" →
        looks (env.textOf el) = true →
        (searchTick looks env s).attached = some el ∧
        (searchTick looks env s).pending = none) ∧
    (∀ (env : TickEnv) (s : SearchState) (txt : String) (ts : Nat),
        s.attached = none → s.pending = some (el, txt, ts) →
        env.inDoc el = true →
        ¬ (env.textOf el ≠ txt ∧ env.textOf el ≠ "" ∧ looks (env.textOf el) = true) →
        env.now - ts > 10000 →
        (searchTick looks env s).attached = none ∧
        (∀ t' ts', (searchTick looks env s).pending = some (el, t', ts') →
          ts' = env.now)) ∧
    (∀ (envs : Nat → TickEnv) (s0 : SearchState),
        s0.attached = none → s0.pending = none →
        (∀ m n : Nat, ¬ ((envs m).textOf el ≠ (envs n).textOf el ∧
            (envs m).textOf el ≠ "" ∧ looks ((envs m).textOf el) = true)) →
        ∀ n, (searchRun looks envs s0 n).attached ≠ some el) := by
  refine ⟨?_, ?_, ?_⟩
  · intro env s txt ts ha hp hdoc hchanged hne hlooks
    obtain ⟨att, pend⟩ := s
    have ha' : att = none := ha
    have hp' : pend = some (el, txt, ts) := hp
    subst ha'
    subst hp'
    have hlive : ¬ attachedLive env ⟨none, some (el, txt, ts)⟩ = true := by
      simp [attachedLive]
    rw [searchTick, if_neg hlive]
    simp only [hdoc, ite_true]
    rw [if_pos ⟨hchanged, hne, hlooks⟩]
    exact ⟨rfl, rfl⟩
  · intro env s txt ts ha hp hdoc hnopromo htime
    obtain ⟨att, pend⟩ := s
    have ha' : att = none := ha
    have hp' : pend = some (el, txt, ts) := hp
    subst ha'
    subst hp'
    have hlive : ¬ attachedLive env ⟨none, some (el, txt, ts)⟩ = true := by
      simp [attachedLive]
    rw [searchTick, if_neg hlive]
    simp only [hdoc, ite_true]
    rw [if_neg hnopromo, if_pos htime]
    exact ⟨rfl, fun t' ts' ht' =>
      (fallThroughScan_pending looks env el t' ts' ht').2⟩
  · intro envs s0 h0a h0p H n
    exact (searchRun_candidate_invariant looks envs s0 el (by simp [h0a]) h0p H n).1

/-- Concrete caption-shape classifier for the C9 witness. -/
def looksDemo (t : String) : Bool :=
  decide (3 ≤ t.length)

/-- Concrete tick environment for the C9 witness. -/
def envDemo : TickEnv :=
  { inDoc := fun _ => true, visible := fun _ => true,
    textOf := fun _ => "hello there", selectorHits := [], now := 20000 }

/-- C9 witness: a pending candidate recorded with text hi is promoted on a
tick where its text is re-observed as the caption-shaped hello there. -/
theorem C9_pending_candidate_witness :
    (searchTick looksDemo envDemo ⟨none, some (0, "hi", 1)⟩).attached = some 0 ∧
    (searchTick looksDemo envDemo ⟨none, some (0, "hi", 1)⟩).pending = none :=
  (C9_pending_candidate looksDemo 0).1 envDemo ⟨none, some (0, "hi", 1)⟩ "hi" 1
    rfl rfl rfl (by decide) (by decide) (by decide)

/-! Claim C10: no committed block has empty text. -/

theorem reachable_committed_text_ne (s : SWState) (h : Reachable s) :
    ∀ b ∈ s.committedBlocks, b.text ≠ "" := by
  induction h with
  | init => simp [initialState]
  | @batch s' caps now _ ih =>
    by_cases hact : s'.active
    · by_cases htriv : caps = [] ∧ s'.lastVisibleCaptions = []
      · simpa [handleCaptionBatch, hact, htriv] using ih
      · simp only [handleCaptionBatch, hact, htriv, not_true, not_false_iff,
          ite_true, ite_false]
        exact commitFold_text_ne _ _ _ ih
    · simpa [handleCaptionBatch, hact] using ih
  | clear _ => simp [clearConversationHistory]
  | activate _ => simp [handleActivate]
  | deactivate _ => simp [handleDeactivate]

/-- C10: committing an observation with an empty text is a no-op on the
committed blocks, and consequently no committed block of any reachable
state ever has an empty text. -/
theorem C10_no_empty_commit :
    (∀ (blocks : List Block) (speaker : String) (now : Nat),
        commitCaption blocks speaker "" now = blocks) ∧
    (∀ s : SWState, Reachable s → ∀ b ∈ s.committedBlocks, b.text ≠ "") := by
  constructor
  · intro blocks speaker now
    simp [commitCaption]
  · intro s h
    exact reachable_committed_text_ne s h

/-- Reachable state used by the C10 witness: activate, observe A saying
hi, then see the captions disappear, which commits the block. -/
def reachDemo : SWState :=
  handleCaptionBatch (handleCaptionBatch (handleActivate initialState) [⟨"A", "hi"⟩] 0) [] 1

/-- C10 witness: the block committed in reachDemo has a non-empty text. -/
theorem C10_no_empty_commit_witness :
    (⟨"A", "hi", 1⟩ : Block).text ≠ "" :=
  C10_no_empty_commit.2 reachDemo
    (Reachable.batch [] 1 (Reachable.batch [⟨"A", "hi"⟩] 0
      (Reachable.activate Reachable.init)))
    ⟨"A", "hi", 1⟩ (by decide)

end RTE
